import Mathlib

/-!
Verification of the vocabulary extraction and enrichment pipeline of
`src/app.py` (Anki card generator).  The Python code is shallowly embedded:
strings that are scanned character by character become `List Char`, the
Python dictionaries built with `dict(zip(...))` become association lists,
and the per-token `try/except` is modelled by `Option`-valued extraction
results on tokens.
-/

/-- Association-list lookup, modelling lookup in the string-keyed Python
dictionaries (`d.get(k, default)` is `(dget d k).getD default`, and
`k in d` is `(dget d k).isSome`). -/
def dget {α : Type} : List (String × α) → String → Option α
  | [], _ => none
  | (k, v) :: rest, key => if k = key then some v else dget rest key

/-- `limpiar_texto` (src/app.py line 82-84):
`texto.replace("\n", "").replace(" ", "").replace("　", "")`.
Each `replace` has a one-character pattern and an empty replacement, so it
removes every occurrence of that character; the three calls are applied in
the source's order. -/
def limpiar_texto (texto : List Char) : List Char :=
  ((texto.filter (fun c => c != '\n')).filter (fun c => c != ' ')).filter
    (fun c => c != '　')

/-- C3: the normalizer output has no newline, no ASCII space and no
ideographic (U+3000) space, and is exactly the input with those three
characters removed: every other character is kept unchanged and in order. -/
theorem limpiar_texto_spec (s : List Char) :
    '\n' ∉ limpiar_texto s ∧ ' ' ∉ limpiar_texto s ∧ '　' ∉ limpiar_texto s ∧
      limpiar_texto s =
        s.filter (fun c => !(c == '\n' || c == ' ' || c == '　')) := by
  refine ⟨?_, ?_, ?_, ?_⟩
  · simp [limpiar_texto]
  · simp [limpiar_texto]
  · simp [limpiar_texto]
  · simp only [limpiar_texto, List.filter_filter]
    apply List.filter_congr
    intro c _
    rcases eq_or_ne c '\n' with h1 | h1 <;> rcases eq_or_ne c ' ' with h2 | h2 <;>
      rcases eq_or_ne c '　' with h3 | h3 <;>
      simp [bne, h1, h2, h3, Bool.and_comm, Bool.and_left_comm, Bool.and_assoc]

/-- `POS_MAP` (src/app.py lines 47-52): native Sudachi tag → display tag. -/
def POS_MAP : List (String × String) :=
  [("名詞", "Noun"), ("動詞", "Verb"), ("形容詞", "Adjective"), ("副詞", "Adverb")]

/-- A token of the morphological analyzer.  `part_of_speech()[0]` and
`dictionary_form()` may raise in Python; a raising call is modelled as
`none` (the `try/except` in the token loop then skips the token). -/
structure Token where
  posResult : Option String
  baseResult : Option String
deriving DecidableEq

/-- Value of the `vocab` dictionary (src/app.py lines 202-207):
`{"count": ..., "pos": ...}`. -/
structure VocabEntry where
  count : Nat
  pos : String
deriving DecidableEq

/-- The `vocab` Python dict, as an insertion-ordered association list. -/
abbrev Vocab : Type := List (String × VocabEntry)

/-- Lookup in `vocab` (`base not in vocab` is `(vlookup v base).isNone`,
`vocab[base]` is the looked-up entry). -/
def vlookup : Vocab → String → Option VocabEntry
  | [], _ => none
  | (k, e) :: rest, base => if k = base then some e else vlookup rest base

/-- `vocab[base]["count"] += 1` on an association list. -/
def incrCount : Vocab → String → Vocab
  | [], _ => []
  | (k, e) :: rest, base =>
      if k = base then (k, { e with count := e.count + 1 }) :: rest
      else (k, e) :: incrCount rest base

/-- The vocabulary update of src/app.py lines 202-207: insert a fresh
`{"count": 0, "pos": pos}` entry when the lemma is new (Python dicts append
new keys at the end), then increment its count. -/
def tokenUpd (v : Vocab) (base : String) (pos : String) : Vocab :=
  let v1 : Vocab :=
    if (vlookup v base).isNone then
      (v ++ [(base, { count := 0, pos := pos })] : List (String × VocabEntry))
    else v
  incrCount v1 base

/-- One iteration of the token loop (src/app.py lines 191-209): extract the
coarse POS (skip the token if that fails), drop particles (助詞) and
auxiliary verbs (助動詞), extract the dictionary form (skip on failure),
translate the tag through `POS_MAP` with default `"Other"`, and fold the
token into `vocab`. -/
def processToken (v : Vocab) (t : Token) : Vocab :=
  match t.posResult with
  | none => v
  | some pos_jp =>
    if pos_jp = "助詞" ∨ pos_jp = "助動詞" then v
    else
      match t.baseResult with
      | none => v
      | some base => tokenUpd v base ((dget POS_MAP pos_jp).getD "Other")

/-- The whole token loop, starting from the empty `vocab`. -/
def processTokens (ts : List Token) : Vocab :=
  ts.foldl processToken []

/-- A token survives the loop when its POS extraction succeeds, its POS is
neither particle nor auxiliary verb, and its dictionary-form extraction
succeeds. -/
def survives (t : Token) : Bool :=
  match t.posResult with
  | none => false
  | some pos_jp =>
      !(pos_jp == "助詞" || pos_jp == "助動詞") && t.baseResult.isSome

/-- Specification-side recursion: the translated POS tag of the first
surviving occurrence of `base` in the token sequence, if any. -/
def specFirstPos : List Token → String → Option String
  | [], _ => none
  | t :: ts, base =>
    match t.posResult with
    | none => specFirstPos ts base
    | some pos_jp =>
      if pos_jp = "助詞" ∨ pos_jp = "助動詞" then specFirstPos ts base
      else
        match t.baseResult with
        | none => specFirstPos ts base
        | some b =>
            if b = base then some ((dget POS_MAP pos_jp).getD "Other")
            else specFirstPos ts base

/-- Sum of the `count` fields over all entries of `vocab`. -/
def totalCount (v : Vocab) : Nat :=
  (v.map (fun p => p.2.count)).sum

lemma vlookup_append (v : Vocab) (b key : String) (e : VocabEntry) :
    vlookup (v ++ [(b, e)]) key =
      match vlookup v key with
      | some x => some x
      | none => if b = key then some e else none := by
  induction v with
  | nil => simp [vlookup]
  | cons p rest ih =>
    obtain ⟨k0, e0⟩ := p
    by_cases h0 : k0 = key <;> simp [vlookup, h0, ih]

lemma vlookup_incrCount (v : Vocab) (base key : String) :
    vlookup (incrCount v base) key =
      if key = base then
        (vlookup v key).map (fun e => { e with count := e.count + 1 })
      else vlookup v key := by
  induction v with
  | nil => simp [incrCount, vlookup]
  | cons p rest ih =>
    obtain ⟨k0, e0⟩ := p
    by_cases h0 : k0 = base
    · subst h0
      by_cases hk : k0 = key
      · subst hk; simp [incrCount, vlookup]
      · simp [incrCount, vlookup, hk, Ne.symm hk]
    · by_cases hk : k0 = key
      · subst hk; simp [incrCount, vlookup, h0, Ne.symm h0, ih]
      · simp [incrCount, vlookup, h0, hk, ih]

lemma vlookup_tokenUpd_self (v : Vocab) (b p : String) :
    vlookup (tokenUpd v b p) b =
      some (match vlookup v b with
            | some e => { e with count := e.count + 1 }
            | none => { count := 1, pos := p }) := by
  unfold tokenUpd
  cases h : vlookup v b with
  | some e => simp [h, vlookup_incrCount]
  | none => simp [h, vlookup_incrCount, vlookup_append]

lemma vlookup_tokenUpd_other (v : Vocab) (b p key : String) (h : key ≠ b) :
    vlookup (tokenUpd v b p) key = vlookup v key := by
  unfold tokenUpd
  cases hb : vlookup v b with
  | some e => simp [hb, vlookup_incrCount, h]
  | none =>
    simp only [hb, Option.isNone_none, if_pos]
    rw [vlookup_incrCount, if_neg h, vlookup_append]
    have hbk : ¬b = key := fun hbk => h hbk.symm
    cases hk : vlookup v key with
    | some x => rfl
    | none => simp [hbk]

lemma totalCount_append (v : Vocab) (b : String) (e : VocabEntry) :
    totalCount (v ++ [(b, e)]) = totalCount v + e.count := by
  simp [totalCount]

lemma totalCount_cons (k : String) (e : VocabEntry) (v : Vocab) :
    totalCount ((k, e) :: v) = e.count + totalCount v := by
  simp [totalCount]

lemma totalCount_incrCount (v : Vocab) (base : String) :
    totalCount (incrCount v base) =
      totalCount v + (if (vlookup v base).isSome then 1 else 0) := by
  induction v with
  | nil => simp [incrCount, vlookup, totalCount]
  | cons p rest ih =>
    obtain ⟨k0, e0⟩ := p
    by_cases h0 : k0 = base
    · subst h0
      simp [incrCount, vlookup, totalCount_cons]
      omega
    · simp only [incrCount, h0, if_false, totalCount_cons, ih, vlookup]
      omega

lemma totalCount_tokenUpd (v : Vocab) (b p : String) :
    totalCount (tokenUpd v b p) = totalCount v + 1 := by
  unfold tokenUpd
  cases hb : vlookup v b with
  | some e => simp [hb, totalCount_incrCount]
  | none =>
    simp only [hb, Option.isNone_none, if_pos]
    rw [totalCount_incrCount, totalCount_append, vlookup_append, hb]
    simp

lemma totalCount_processToken (v : Vocab) (t : Token) :
    totalCount (processToken v t) =
      totalCount v + (if survives t then 1 else 0) := by
  unfold processToken survives
  cases hp : t.posResult with
  | none => simp
  | some pos_jp =>
    by_cases hpa : pos_jp = "助詞" ∨ pos_jp = "助動詞"
    · have : (pos_jp == "助詞" || pos_jp == "助動詞") = true := by
        rcases hpa with h | h <;> simp [h]
      simp [hpa, this]
    · have hne : (pos_jp == "助詞" || pos_jp == "助動詞") = false := by
        simp only [Bool.or_eq_false_iff, beq_eq_false_iff_ne]
        exact ⟨fun h => hpa (Or.inl h), fun h => hpa (Or.inr h)⟩
      cases hb : t.baseResult with
      | none => simp [hpa, hne, hb]
      | some base => simp [hpa, hne, hb, totalCount_tokenUpd]

lemma totalCount_foldl (ts : List Token) :
    ∀ v : Vocab,
      totalCount (List.foldl processToken v ts) =
        totalCount v + List.countP survives ts := by
  induction ts with
  | nil => intro v; simp
  | cons t ts ih =>
    intro v
    simp only [List.foldl_cons, List.countP_cons, ih, totalCount_processToken]
    cases h : survives t <;> simp [h] <;> omega

/-- C6: the counts recorded by the aggregator add up to the number of
tokens that pass the particle/auxiliary filter and whose POS and
dictionary-form extraction both succeed. -/
theorem aggregator_count_sum (ts : List Token) :
    totalCount (processTokens ts) = List.countP survives ts := by
  simpa [processTokens, totalCount] using totalCount_foldl ts []

lemma processToken_skip_pos (v : Vocab) (t : Token) (h : t.posResult = none) :
    processToken v t = v := by
  simp [processToken, h]

lemma processToken_skip_particle (v : Vocab) (t : Token) (p : String)
    (hp : t.posResult = some p) (h : p = "助詞" ∨ p = "助動詞") :
    processToken v t = v := by
  simp [processToken, hp, h]

lemma processToken_skip_base (v : Vocab) (t : Token) (p : String)
    (hp : t.posResult = some p) (h : ¬(p = "助詞" ∨ p = "助動詞"))
    (hb : t.baseResult = none) :
    processToken v t = v := by
  simp [processToken, hp, h, hb]

lemma processToken_upd (v : Vocab) (t : Token) (p b : String)
    (hp : t.posResult = some p) (h : ¬(p = "助詞" ∨ p = "助動詞"))
    (hb : t.baseResult = some b) :
    processToken v t = tokenUpd v b ((dget POS_MAP p).getD "Other") := by
  simp [processToken, hp, h, hb]

lemma specFirstPos_skip (t : Token) (ts : List Token) (base : String)
    (h : survives t = false) :
    specFirstPos (t :: ts) base = specFirstPos ts base := by
  unfold survives at h
  cases hp : t.posResult with
  | none => simp [specFirstPos, hp]
  | some p =>
    rw [hp] at h
    by_cases hpa : p = "助詞" ∨ p = "助動詞"
    · simp [specFirstPos, hp, hpa]
    · cases hb : t.baseResult with
      | none => simp [specFirstPos, hp, hpa, hb]
      | some b =>
        rw [hb] at h
        simp at h
        rcases eq_or_ne p "助詞" with h1 | h1
        · exact absurd (Or.inl h1) hpa
        · exact absurd (Or.inr (h h1)) hpa

lemma specFirstPos_cons_upd (t : Token) (ts : List Token) (p b base : String)
    (hp : t.posResult = some p) (h : ¬(p = "助詞" ∨ p = "助動詞"))
    (hb : t.baseResult = some b) :
    specFirstPos (t :: ts) base =
      if b = base then some ((dget POS_MAP p).getD "Other")
      else specFirstPos ts base := by
  simp [specFirstPos, hp, h, hb]

lemma vlookup_foldl_pos (ts : List Token) :
    ∀ (v : Vocab) (base : String),
      (vlookup (List.foldl processToken v ts) base).map VocabEntry.pos =
        match vlookup v base with
        | some e => some e.pos
        | none => specFirstPos ts base := by
  induction ts with
  | nil =>
    intro v base
    cases h : vlookup v base <;> simp [h, specFirstPos]
  | cons t ts ih =>
    intro v base
    rw [List.foldl_cons, ih]
    cases hp : t.posResult with
    | none =>
      rw [processToken_skip_pos v t hp,
        specFirstPos_skip t ts base (by simp [survives, hp])]
    | some pos_jp =>
      by_cases hpa : pos_jp = "助詞" ∨ pos_jp = "助動詞"
      · rw [processToken_skip_particle v t pos_jp hp hpa,
          specFirstPos_skip t ts base ?_]
        unfold survives
        rw [hp]
        rcases hpa with h | h <;> simp [h]
      · cases hb : t.baseResult with
        | none =>
          rw [processToken_skip_base v t pos_jp hp hpa hb,
            specFirstPos_skip t ts base (by simp [survives, hp, hb])]
        | some b =>
          rw [processToken_upd v t pos_jp b hp hpa hb,
            specFirstPos_cons_upd t ts pos_jp b base hp hpa hb]
          by_cases hbb : b = base
          · subst hbb
            rw [vlookup_tokenUpd_self]
            cases h : vlookup v b <;> simp [h]
          · rw [vlookup_tokenUpd_other v b _ base (fun hx => hbb hx.symm),
              if_neg hbb]

/-- C5: the part of speech recorded for each lemma is the translated POS
tag of that lemma's first surviving occurrence in token order; later
occurrences never overwrite it. -/
theorem aggregator_first_seen_pos (ts : List Token) (base : String) :
    (vlookup (processTokens ts) base).map VocabEntry.pos =
      specFirstPos ts base := by
  have h := vlookup_foldl_pos ts [] base
  simpa [processTokens, vlookup] using h

lemma dget_POS_MAP_mem (p x : String) (h : dget POS_MAP p = some x) :
    x ∈ (["Noun", "Verb", "Adjective", "Adverb"] : List String) := by
  simp only [POS_MAP, dget] at h
  split_ifs at h <;> simp_all

/-- C7: a token whose native POS is 助詞 (particle) or 助動詞 (auxiliary
verb) is discarded entirely; any other token's tag is translated through
`POS_MAP` into {Noun, Verb, Adjective, Adverb}, a tag outside the map is
labelled "Other", and in either case the token is folded into the
vocabulary rather than dropped. -/
theorem analyzer_filter_and_tags (t : Token) (v : Vocab) (p : String)
    (hp : t.posResult = some p) :
    ((p = "助詞" ∨ p = "助動詞") → processToken v t = v) ∧
      (¬(p = "助詞" ∨ p = "助動詞") →
        ((dget POS_MAP p).isSome →
            (dget POS_MAP p).getD "Other" ∈
              (["Noun", "Verb", "Adjective", "Adverb"] : List String)) ∧
          (dget POS_MAP p = none → (dget POS_MAP p).getD "Other" = "Other") ∧
          ∀ b, t.baseResult = some b →
            (vlookup (processToken v t) b).isSome = true) := by
  constructor
  · intro h
    exact processToken_skip_particle v t p hp h
  · intro h
    refine ⟨?_, ?_, ?_⟩
    · intro hs
      cases hx : dget POS_MAP p with
      | none => rw [hx] at hs; simp at hs
      | some x => simpa [hx] using dget_POS_MAP_mem p x hx
    · intro hx; rw [hx]; rfl
    · intro b hb
      rw [processToken_upd v t p b hp h hb, vlookup_tokenUpd_self]
      rfl

/-- Witness for C7 at a concrete token: the interjection tag 感動詞 is not
in `POS_MAP`, so it is labelled "Other" and its token still enters the
vocabulary. -/
theorem analyzer_filter_and_tags_witness :
    (dget POS_MAP "感動詞").getD "Other" = "Other" ∧
      (vlookup (processToken [] ⟨some "感動詞", some "ああ"⟩) "ああ").isSome
        = true :=
  ⟨((analyzer_filter_and_tags ⟨some "感動詞", some "ああ"⟩ [] "感動詞"
        rfl).2 (by decide)).2.1 (by decide),
    ((analyzer_filter_and_tags ⟨some "感動詞", some "ああ"⟩ [] "感動詞"
        rfl).2 (by decide)).2.2 "ああ" rfl⟩

/-- C8: when POS extraction or dictionary-form extraction of a token fails
(the `try/except` around the token body), the token leaves the vocabulary
unchanged and the loop continues with the remaining tokens. -/
theorem token_failure_skipped (t : Token) (v : Vocab) (ts : List Token)
    (h : t.posResult = none ∨ t.baseResult = none) :
    processToken v t = v ∧
      List.foldl processToken v (t :: ts) = List.foldl processToken v ts := by
  have hskip : processToken v t = v := by
    rcases h with h | h
    · exact processToken_skip_pos v t h
    · cases hp : t.posResult with
      | none => exact processToken_skip_pos v t hp
      | some p =>
        by_cases hpa : p = "助詞" ∨ p = "助動詞"
        · exact processToken_skip_particle v t p hp hpa
        · exact processToken_skip_base v t p hp hpa h
  exact ⟨hskip, by rw [List.foldl_cons, hskip]⟩

/-- Witness for C8: a token whose POS extraction fails is a no-op for the
vocabulary fold. -/
theorem token_failure_skipped_witness :
    processToken [] ⟨none, some "食べる"⟩ = [] ∧
      List.foldl processToken [] [⟨none, some "食べる"⟩] =
        List.foldl processToken [] [] :=
  token_failure_skipped ⟨none, some "食べる"⟩ [] [] (Or.inl rfl)

/-- `jlpt_rank` (src/app.py line 217). -/
def jlpt_rank : List (String × Nat) :=
  [("N5", 1), ("N4", 2), ("N3", 3), ("N2", 4), ("N1", 5)]

/-- The level filter of src/app.py line 223:
`if jlpt and jlpt in jlpt_rank and jlpt_rank[jlpt] > jlpt_rank[min_jlpt]`.
The UI restricts `min_jlpt` to the five levels (lines 123-128), so when the
conjunction reaches `jlpt_rank[min_jlpt]` that lookup always succeeds; the
`match` returns `false` only in configurations the UI cannot produce. -/
def levelFilterDrop (jlpt min_jlpt : String) : Bool :=
  (!(jlpt == "")) &&
    (match dget jlpt_rank jlpt, dget jlpt_rank min_jlpt with
     | some r, some m => decide (m < r)
     | _, _ => false)

/-- A row of the output table (src/app.py lines 231-240). -/
structure EnrichedRow where
  Front : String
  Reading : String
  Furigana : String
  POS : String
  Meaning_EN : String
  JLPT : String
  Frequency_PDF : Nat
  Frequency_Global : String
deriving DecidableEq

/-- A cell value of the output table: `Frequency_PDF` is an integer count,
every other column holds a string. -/
inductive Cell where
  | str (s : String)
  | nat (n : Nat)
deriving DecidableEq

/-- The row dictionary appended in src/app.py lines 231-240, with its keys
in the insertion order of the Python dict literal. -/
def cells (r : EnrichedRow) : List (String × Cell) :=
  [("Front", Cell.str r.Front),
   ("Reading", Cell.str r.Reading),
   ("Furigana", Cell.str r.Furigana),
   ("POS", Cell.str r.POS),
   ("Meaning_EN", Cell.str r.Meaning_EN),
   ("JLPT", Cell.str r.JLPT),
   ("Frequency_PDF", Cell.nat r.Frequency_PDF),
   ("Frequency_Global", Cell.str r.Frequency_Global)]

/-- Construction of one output row (src/app.py lines 226-240).  `conv`
models `[item["hira"] for item in conv.convert(word)]`: the list of
hiragana segments pykakasi produces for the lemma. -/
def mkRow (conv : String → List String) (freq_dict en_dict : List (String × String))
    (word : String) (info : VocabEntry) (jlpt : String) : EnrichedRow :=
  let reading_text := String.join (conv word)
  { Front := word
    Reading := reading_text
    Furigana := "<ruby>" ++ word ++ "<rt>" ++ reading_text ++ "</rt></ruby>"
    POS := info.pos
    Meaning_EN := (dget en_dict word).getD ""
    JLPT := jlpt
    Frequency_PDF := info.count
    Frequency_Global := (dget freq_dict word).getD "" }

/-- The row-building loop of src/app.py lines 216-240: for each `vocab`
entry in insertion order, look the lemma up in the JLPT map (default `""`),
drop the entry when the level filter fires, otherwise append the enriched
row. -/
def buildRows (conv : String → List String)
    (jlpt_dict freq_dict en_dict : List (String × String))
    (min_jlpt : String) : List (String × VocabEntry) → List EnrichedRow
  | [] => []
  | (word, info) :: rest =>
    let jlpt := (dget jlpt_dict word).getD ""
    if levelFilterDrop jlpt min_jlpt then
      buildRows conv jlpt_dict freq_dict en_dict min_jlpt rest
    else
      mkRow conv freq_dict en_dict word info jlpt ::
        buildRows conv jlpt_dict freq_dict en_dict min_jlpt rest

/-- The comparator realized by
`df.sort_values(by=["JLPT", "Frequency_PDF"], ascending=[True, False])`
(src/app.py line 245): JLPT string ascending (Python/pandas compare
strings lexicographically by code point), then document frequency
descending. -/
def rankLe (a b : EnrichedRow) : Prop :=
  a.JLPT < b.JLPT ∨ (a.JLPT = b.JLPT ∧ b.Frequency_PDF ≤ a.Frequency_PDF)

instance : DecidableRel rankLe := fun a b =>
  inferInstanceAs (Decidable (_ ∨ _ ∧ _))

/-- The Ranker: a multi-column pandas `sort_values` is a stable
lexicographic sort (it is implemented with `numpy.lexsort`), modelled by
the stable `insertionSort` with the two-key comparator. -/
def ranker (rows : List EnrichedRow) : List EnrichedRow :=
  rows.insertionSort rankLe

instance : IsTotal EnrichedRow rankLe where
  total a b := by
    rcases lt_trichotomy a.JLPT b.JLPT with h | h | h
    · exact Or.inl (Or.inl h)
    · rcases Nat.le_total a.Frequency_PDF b.Frequency_PDF with hf | hf
      · exact Or.inr (Or.inr ⟨h.symm, hf⟩)
      · exact Or.inl (Or.inr ⟨h, hf⟩)
    · exact Or.inr (Or.inl h)

instance : IsTrans EnrichedRow rankLe where
  trans a b c hab hbc := by
    rcases hab with hab | ⟨hab, haf⟩
    · rcases hbc with hbc | ⟨hbc, _⟩
      · exact Or.inl (hab.trans hbc)
      · exact Or.inl (hbc ▸ hab)
    · rcases hbc with hbc | ⟨hbc, hbf⟩
      · exact Or.inl (hab ▸ hbc)
      · exact Or.inr ⟨hab.trans hbc, hbf.trans haf⟩

lemma empty_string_le (s : String) : ("" : String) ≤ s :=
  String.le_iff_toList_le.mpr List.nil_le

/-- A concrete row with a known JLPT level, for the C1 counterexample. -/
def rowKnown : EnrichedRow :=
  { Front := "食べる", Reading := "たべる",
    Furigana := "<ruby>食べる<rt>たべる</rt></ruby>", POS := "Verb",
    Meaning_EN := "to eat", JLPT := "N5", Frequency_PDF := 3,
    Frequency_Global := "5000" }

/-- A concrete row whose lemma has no JLPT level, for the C1
counterexample. -/
def rowUnknown : EnrichedRow :=
  { Front := "珈琲", Reading := "こーひー",
    Furigana := "<ruby>珈琲<rt>こーひー</rt></ruby>", POS := "Noun",
    Meaning_EN := "coffee", JLPT := "", Frequency_PDF := 1,
    Frequency_Global := "" }

lemma not_rankLe_rowKnown_rowUnknown : ¬ rankLe rowKnown rowUnknown := by
  rintro (h | ⟨h, _⟩)
  · exact absurd (String.lt_iff_toList_lt.mp h) (by decide)
  · exact absurd h (by decide)

lemma ranker_pair_eval :
    ranker [rowKnown, rowUnknown] = [rowUnknown, rowKnown] := by
  unfold ranker
  simp only [List.insertionSort, List.orderedInsert]
  rw [if_neg not_rankLe_rowKnown_rowUnknown]

/-- C1 is refuted: the claim "rows with empty JLPT are placed after all
rows with a known level" fails on the concrete input
`[rowKnown, rowUnknown]`, whose sorted output starts with the empty-JLPT
row (the empty string compares below every level string in the ascending
primary key). -/
theorem ranker_empty_last_counterexample :
    ¬ ∀ l : List EnrichedRow,
        ((ranker l).map EnrichedRow.JLPT).Pairwise
          (fun x y => x = "" → y = "") := by
  intro hclaim
  have h := hclaim [rowKnown, rowUnknown]
  rw [ranker_pair_eval] at h
  have h2 := (List.pairwise_cons.mp h).1 "N5" (by simp [rowKnown, rowUnknown])
  exact absurd (h2 rfl) (by decide)

/-- C1 (amended): for every list of enriched rows, the Ranker returns a
permutation of its input that is sorted by the two-key comparator —
JLPT string ascending, then Frequency_PDF descending within equal JLPT —
and in the ascending JLPT key the empty string sorts BEFORE (not after)
every known level: whenever a later row of the output has an empty JLPT,
every earlier row has an empty JLPT as well. -/
theorem ranker_sorted_amended (l : List EnrichedRow) :
    (ranker l).Perm l ∧ (ranker l).Sorted rankLe ∧
      ((ranker l).map EnrichedRow.JLPT).Pairwise (fun x y => y = "" → x = "") := by
  refine ⟨List.perm_insertionSort rankLe l, List.sorted_insertionSort rankLe l, ?_⟩
  have hs : (ranker l).Pairwise rankLe := List.sorted_insertionSort rankLe l
  refine List.Pairwise.map EnrichedRow.JLPT ?_ hs
  intro a b hab hb
  rcases hab with hab | ⟨hab, _⟩
  · rw [hb] at hab
    exact absurd hab (not_lt.mpr (empty_string_le _))
  · rw [hab, hb]

/-- C2: the Ranker's sort is stable — two rows that agree on both sort
keys keep their input relative order — and re-sorting an already sorted
output is the identity, so equal inputs give identical outputs. -/
theorem ranker_stable (l : List EnrichedRow) :
    (∀ a b : EnrichedRow, a.JLPT = b.JLPT → a.Frequency_PDF = b.Frequency_PDF →
        List.Sublist [a, b] l → List.Sublist [a, b] (ranker l)) ∧
      ranker (ranker l) = ranker l := by
  constructor
  · intro a b h1 h2 hsub
    exact List.pair_sublist_insertionSort (Or.inr ⟨h1, le_of_eq h2.symm⟩) hsub
  · exact List.Sorted.insertionSort_eq (List.sorted_insertionSort rankLe l)

/-- A pair of rows tied on both sort keys, for the C2 witness. -/
def rowTiedA : EnrichedRow :=
  { Front := "川", Reading := "かわ",
    Furigana := "<ruby>川<rt>かわ</rt></ruby>", POS := "Noun",
    Meaning_EN := "river", JLPT := "N4", Frequency_PDF := 2,
    Frequency_Global := "" }

/-- Second row of the tied pair for the C2 witness. -/
def rowTiedB : EnrichedRow :=
  { Front := "山", Reading := "やま",
    Furigana := "<ruby>山<rt>やま</rt></ruby>", POS := "Noun",
    Meaning_EN := "mountain", JLPT := "N4", Frequency_PDF := 2,
    Frequency_Global := "" }

/-- Witness for C2 on a concrete tied pair. -/
theorem ranker_stable_witness :
    List.Sublist [rowTiedA, rowTiedB] (ranker [rowTiedA, rowTiedB]) ∧
      ranker (ranker [rowTiedA, rowTiedB]) = ranker [rowTiedA, rowTiedB] :=
  ⟨(ranker_stable [rowTiedA, rowTiedB]).1 rowTiedA rowTiedB rfl rfl
      (List.Sublist.refl _),
    (ranker_stable [rowTiedA, rowTiedB]).2⟩

lemma dget_jlpt_rank_ne_empty (l : String) (r : Nat)
    (h : dget jlpt_rank l = some r) : l ≠ "" := by
  intro he
  subst he
  simp [jlpt_rank, dget] at h

lemma levelFilterDrop_spec (jd : List (String × String))
    (word min_jlpt : String) (m : Nat)
    (hmin : dget jlpt_rank min_jlpt = some m) :
    levelFilterDrop ((dget jd word).getD "") min_jlpt =
      ((dget jd word).bind (dget jlpt_rank)).any (fun r => decide (m < r)) := by
  cases hj : dget jd word with
  | none => simp [levelFilterDrop]
  | some l =>
    cases hr : dget jlpt_rank l with
    | none => simp [levelFilterDrop, hr]
    | some r =>
      have hne : l ≠ "" := dget_jlpt_rank_ne_empty l r hr
      simp [levelFilterDrop, hr, hmin, hne]

/-- C4: a vocabulary entry is dropped exactly when the JLPT lookup of its
lemma yields one of the five known levels whose rank exceeds the
configured minimum's rank; a lemma absent from the JLPT map is kept with
an empty JLPT value, and a missing key in the meaning or frequency map
yields an empty field value rather than an error. -/
theorem enrichment_join_filter (conv : String → List String)
    (jd fd ed : List (String × String)) (min_jlpt : String) (m : Nat)
    (hmin : dget jlpt_rank min_jlpt = some m) (word : String)
    (info : VocabEntry) (rest : List (String × VocabEntry)) :
    buildRows conv jd fd ed min_jlpt ((word, info) :: rest) =
      (if ((dget jd word).bind (dget jlpt_rank)).any (fun r => decide (m < r)) then
        buildRows conv jd fd ed min_jlpt rest
      else
        mkRow conv fd ed word info ((dget jd word).getD "") ::
          buildRows conv jd fd ed min_jlpt rest) ∧
      (mkRow conv fd ed word info ((dget jd word).getD "")).JLPT
          = (dget jd word).getD "" ∧
      (mkRow conv fd ed word info ((dget jd word).getD "")).Meaning_EN
          = (dget ed word).getD "" ∧
      (mkRow conv fd ed word info ((dget jd word).getD "")).Frequency_Global
          = (dget fd word).getD "" := by
  refine ⟨?_, rfl, rfl, rfl⟩
  show (if levelFilterDrop ((dget jd word).getD "") min_jlpt then
          buildRows conv jd fd ed min_jlpt rest
        else
          mkRow conv fd ed word info ((dget jd word).getD "") ::
            buildRows conv jd fd ed min_jlpt rest) = _
  rw [levelFilterDrop_spec jd word min_jlpt m hmin]

/-- Concrete reading generator for witnesses: every lemma converts to a
single hiragana segment. -/
def wconv : String → List String := fun _ => ["たべる"]

/-- Concrete JLPT dictionary for the C4 witness. -/
def wjd : List (String × String) := [("難", "N1")]

/-- Concrete empty string-valued dictionary for witnesses. -/
def wempty : List (String × String) := []

/-- Witness for C4: with threshold N3 (rank 3), an N1 (rank 5) lemma is
dropped. -/
theorem enrichment_join_filter_witness :
    dget jlpt_rank "N3" = some 3 ∧
      (buildRows wconv wjd wempty wempty "N3" [("難", ⟨2, "Noun"⟩)] =
        (if ((dget wjd "難").bind (dget jlpt_rank)).any (fun r => decide (3 < r)) then
          buildRows wconv wjd wempty wempty "N3" []
        else
          mkRow wconv wempty wempty "難" ⟨2, "Noun"⟩ ((dget wjd "難").getD "") ::
            buildRows wconv wjd wempty wempty "N3" []) ∧
        (mkRow wconv wempty wempty "難" ⟨2, "Noun"⟩ ((dget wjd "難").getD "")).JLPT
            = (dget wjd "難").getD "" ∧
        (mkRow wconv wempty wempty "難" ⟨2, "Noun"⟩ ((dget wjd "難").getD "")).Meaning_EN
            = (dget wempty "難").getD "" ∧
        (mkRow wconv wempty wempty "難" ⟨2, "Noun"⟩ ((dget wjd "難").getD "")).Frequency_Global
            = (dget wempty "難").getD "") :=
  ⟨by decide,
    enrichment_join_filter wconv wjd wempty wempty "N3" 3 (by decide) "難"
      ⟨2, "Noun"⟩ []⟩

lemma dget_jlpt_rank_of_not_mem (l : String)
    (hn : l ∉ (["N5", "N4", "N3", "N2", "N1"] : List String)) :
    dget jlpt_rank l = none := by
  simp only [List.mem_cons, List.not_mem_nil, or_false, not_or] at hn
  obtain ⟨h5, h4, h3, h2, h1⟩ := hn
  simp [jlpt_rank, dget, Ne.symm h5, Ne.symm h4, Ne.symm h3, Ne.symm h2,
    Ne.symm h1]

/-- C10: a lemma whose JLPT lookup succeeds with a value outside the five
known levels is never dropped, for any configured threshold; the raw value
is carried into the row's JLPT field. -/
theorem unknown_jlpt_value_kept (conv : String → List String)
    (jd fd ed : List (String × String)) (min_jlpt word l : String)
    (info : VocabEntry) (rest : List (String × VocabEntry))
    (hl : dget jd word = some l)
    (hn : l ∉ (["N5", "N4", "N3", "N2", "N1"] : List String)) :
    buildRows conv jd fd ed min_jlpt ((word, info) :: rest) =
        mkRow conv fd ed word info l ::
          buildRows conv jd fd ed min_jlpt rest ∧
      (mkRow conv fd ed word info l).JLPT = l := by
  refine ⟨?_, rfl⟩
  show (if levelFilterDrop ((dget jd word).getD "") min_jlpt then
          buildRows conv jd fd ed min_jlpt rest
        else
          mkRow conv fd ed word info ((dget jd word).getD "") ::
            buildRows conv jd fd ed min_jlpt rest) = _
  rw [hl]
  have hdrop : levelFilterDrop ((some l).getD "") min_jlpt = false := by
    simp [levelFilterDrop, dget_jlpt_rank_of_not_mem l hn]
  rw [hdrop]
  rfl

/-- Witness for C10: the malformed level "N0" passes the filter and lands
verbatim in the JLPT column. -/
theorem unknown_jlpt_value_kept_witness :
    buildRows wconv [("字", "N0")] wempty wempty "N3" [("字", ⟨1, "Noun"⟩)] =
        mkRow wconv wempty wempty "字" ⟨1, "Noun"⟩ "N0" ::
          buildRows wconv [("字", "N0")] wempty wempty "N3" [] ∧
      (mkRow wconv wempty wempty "字" ⟨1, "Noun"⟩ "N0").JLPT = "N0" :=
  unknown_jlpt_value_kept wconv [("字", "N0")] wempty wempty "N3" "字" "N0"
    ⟨1, "Noun"⟩ [] (by decide) (by decide)

lemma buildRows_mem (conv : String → List String)
    (jd fd ed : List (String × String)) (min_jlpt : String) :
    ∀ (vocab : List (String × VocabEntry)) (r : EnrichedRow),
      r ∈ buildRows conv jd fd ed min_jlpt vocab →
      ∃ (word : String) (info : VocabEntry), (word, info) ∈ vocab ∧
        r = mkRow conv fd ed word info ((dget jd word).getD "") := by
  intro vocab
  induction vocab with
  | nil => intro r hr; simp [buildRows] at hr
  | cons p rest ih =>
    obtain ⟨word, info⟩ := p
    intro r hr
    by_cases hd : levelFilterDrop ((dget jd word).getD "") min_jlpt = true
    · rw [show buildRows conv jd fd ed min_jlpt ((word, info) :: rest) =
            buildRows conv jd fd ed min_jlpt rest from by
          show (if levelFilterDrop ((dget jd word).getD "") min_jlpt then _
                else _) = _
          rw [hd]
          simp] at hr
      obtain ⟨word2, info2, hmem, heq⟩ := ih r hr
      exact ⟨word2, info2, List.mem_cons_of_mem _ hmem, heq⟩
    · rw [show buildRows conv jd fd ed min_jlpt ((word, info) :: rest) =
            mkRow conv fd ed word info ((dget jd word).getD "") ::
              buildRows conv jd fd ed min_jlpt rest from by
          show (if levelFilterDrop ((dget jd word).getD "") min_jlpt then _
                else _) = _
          rw [Bool.of_not_eq_true hd]
          simp] at hr
      rcases List.mem_cons.mp hr with heq | hr2
      · exact ⟨word, info, List.mem_cons_self _ _, heq⟩
      · obtain ⟨word2, info2, hmem, heq⟩ := ih r hr2
        exact ⟨word2, info2, List.mem_cons_of_mem _ hmem, heq⟩

/-- C9: every row of the sorted output table carries exactly the eight
columns Front, Reading, Furigana, POS, Meaning_EN, JLPT, Frequency_PDF,
Frequency_Global in that order; Front is the lemma of a vocabulary entry,
Reading is the concatenation of the hiragana segments produced for the
lemma, and Furigana is exactly
`"<ruby>" ++ lemma ++ "<rt>" ++ reading ++ "</rt></ruby>"`. -/
theorem output_row_schema (conv : String → List String)
    (jd fd ed : List (String × String)) (min_jlpt : String)
    (vocab : List (String × VocabEntry)) :
    ∀ r ∈ ranker (buildRows conv jd fd ed min_jlpt vocab),
      (cells r).map Prod.fst =
          ["Front", "Reading", "Furigana", "POS", "Meaning_EN", "JLPT",
            "Frequency_PDF", "Frequency_Global"] ∧
        (∃ info : VocabEntry, (r.Front, info) ∈ vocab ∧
            r.POS = info.pos ∧ r.Frequency_PDF = info.count) ∧
        r.Reading = String.join (conv r.Front) ∧
        r.Furigana = "<ruby>" ++ r.Front ++ "<rt>" ++ r.Reading ++
          "</rt></ruby>" := by
  intro r hr
  have hr2 : r ∈ buildRows conv jd fd ed min_jlpt vocab :=
    (List.mem_insertionSort rankLe).mp hr
  obtain ⟨word, info, hmem, heq⟩ :=
    buildRows_mem conv jd fd ed min_jlpt vocab r hr2
  subst heq
  exact ⟨rfl, ⟨info, hmem, rfl, rfl⟩, rfl, rfl⟩

/-- Concrete JLPT dictionary for the C9 witness (the round-trip scenario
of the spec). -/
def wjd9 : List (String × String) := [("食べる", "N5")]

/-- Concrete frequency dictionary for the C9 witness. -/
def wfd9 : List (String × String) := [("食べる", "5000")]

/-- Concrete meaning dictionary for the C9 witness. -/
def wed9 : List (String × String) := [("食べる", "to eat")]

/-- Concrete vocabulary for the C9 witness. -/
def wvocab9 : List (String × VocabEntry) := [("食べる", ⟨5, "Verb"⟩)]

/-- The single output row of the C9 witness scenario. -/
def wrow9 : EnrichedRow := mkRow wconv wfd9 wed9 "食べる" ⟨5, "Verb"⟩ "N5"

/-- Witness for C9 on the concrete round-trip scenario. -/
theorem output_row_schema_witness :
    (cells wrow9).map Prod.fst =
        ["Front", "Reading", "Furigana", "POS", "Meaning_EN", "JLPT",
          "Frequency_PDF", "Frequency_Global"] ∧
      (∃ info : VocabEntry, (wrow9.Front, info) ∈ wvocab9 ∧
          wrow9.POS = info.pos ∧ wrow9.Frequency_PDF = info.count) ∧
      wrow9.Reading = String.join (wconv wrow9.Front) ∧
      wrow9.Furigana = "<ruby>" ++ wrow9.Front ++ "<rt>" ++ wrow9.Reading ++
        "</rt></ruby>" :=
  output_row_schema wconv wjd9 wfd9 wed9 "N3" wvocab9 wrow9 (by decide)
